import Mathlib

/-!
Shallow embedding of the `fn` Go package: a lazy-sequence and container
combinator library built on Go's `iter.Seq` push-style iterators.

Modelling conventions:
* Go's nullable `error` interface value is modelled by `fn.GoError`:
  either `nil` or a non-nil error value carrying its message.
* A finite push-style sequence (`iter.Seq[T]`) is modelled by the list of
  elements it hands to an always-continuing consumer; driving a consumer
  that may stop early is modelled explicitly (`fn.pushList`, `fn.Chain`,
  `fn.Zip`, `fn.StepRange`).
* `panic` is modelled by `Except.error`; normal return by `Except.ok`.
* The `StepRange` generator loop may fail to terminate, so it is embedded
  fuel-indexed: `fn.LoopResult.fuelOut` means the loop is still running
  after the given number of iterations.
* Go numeric type parameters are instantiated at `Int`.
-/

set_option autoImplicit false

namespace fn

/-- Go `error` interface value: `nil`, or a non-nil error (identified by its
message). -/
inductive GoError where
  | nil : GoError
  | mk (msg : String) : GoError
deriving DecidableEq, Repr

/-- Go `Result[T]` struct: field `val T` and field `err error`. -/
structure Result (T : Type) where
  val : T
  err : GoError
deriving DecidableEq, Repr

/-- Go `Try[T](t T, err error) Result[T] { return Result[T]{val: t, err: err} }`. -/
def Try {T : Type} (t : T) (err : GoError) : Result T :=
  { val := t, err := err }

/-- Go `Ok[T](t T) Result[T] { return Result[T]{val: t} }`: the `err` field is
left at its zero value, `nil`. -/
def Ok {T : Type} (t : T) : Result T :=
  { val := t, err := GoError.nil }

/-- Go `Err[T](err error) Result[T] { return Result[T]{err: err} }`: the `val`
field is left at the zero value of `T` (modelled by `default`). -/
def Err (T : Type) [Inhabited T] (err : GoError) : Result T :=
  { val := default, err := err }

/-- Go `Unpack[T](r Result[T]) (T, error) { return r.val, r.err }`. -/
def Unpack {T : Type} (r : Result T) : T × GoError :=
  (r.val, r.err)

/-- Go method `(r Result[T]) unwrap() (T, bool) { return r.val, r.err == nil }`. -/
def Result.unwrap {T : Type} (r : Result T) : T × Bool :=
  (r.val, r.err == GoError.nil)

/-- Go method `(r Result[T]) Iter() iter.Seq[T]`: yields `r.val` iff
`r.err == nil`. Modelled as the list of yielded elements. -/
def Result.Iter {T : Type} (r : Result T) : List T :=
  if r.err = GoError.nil then [r.val] else []

/-- Go `IterErr[T](r Result[T]) iter.Seq[error]`: yields `r.err` iff
`r.err != nil`. Modelled as the list of yielded errors. -/
def IterErr {T : Type} (r : Result T) : List GoError :=
  if r.err ≠ GoError.nil then [r.err] else []

/-- Go `Option[T]` struct: field `val T` and field `hasSome bool`. -/
structure Option (T : Type) where
  val : T
  hasSome : Bool
deriving DecidableEq, Repr

/-- Go method `(o Option[T]) unwrap() (T, bool) { return o.val, o.hasSome }`. -/
def Option.unwrap {T : Type} (o : Option T) : T × Bool :=
  (o.val, o.hasSome)

/-- Go method `(o Option[T]) Iter() iter.Seq[T]`: yields `o.val` iff
`o.hasSome`. Modelled as the list of yielded elements. -/
def Option.Iter {T : Type} (o : Option T) : List T :=
  if o.hasSome then [o.val] else []

/-- Go `Some[T](val T) Option[T]`. -/
def Some {T : Type} (val : T) : Option T :=
  { val := val, hasSome := true }

/-- Go `None[T]() Option[T] { var o Option[T]; return o }`: the zero value,
with `val` the zero value of `T` and `hasSome` false. -/
def None (T : Type) [Inhabited T] : Option T :=
  { val := default, hasSome := false }

/-- Go interface `unwrappable[T] { unwrap() (T, bool) }`, the shared capability
of `Result` and `Option`. -/
class unwrappable (F : Type → Type) where
  unwrap : {T : Type} → F T → T × Bool

instance instUnwrappableResult : unwrappable Result :=
  ⟨fun r => r.unwrap⟩

instance instUnwrappableOption : unwrappable Option :=
  ⟨fun o => o.unwrap⟩

/-- Go `Unwrap[T](x unwrappable[T]) T`: returns the value, panicking (here:
`Except.error` with the panic message) when the container is empty. -/
def Unwrap {F : Type → Type} [unwrappable F] {T : Type} (x : F T) : Except String T :=
  let (val, ok) := unwrappable.unwrap x
  if ok then Except.ok val else Except.error "called Unwrap on an empty value"

/-- Go `UnwrapOr[T](x unwrappable[T], def T) T`. -/
def UnwrapOr {F : Type → Type} [unwrappable F] {T : Type} (x : F T) (dflt : T) : T :=
  let (val, ok) := unwrappable.unwrap x
  if ok then val else dflt

/-- Go `UnwrapOrF[T](x unwrappable[T], def func() T) T`. -/
def UnwrapOrF {F : Type → Type} [unwrappable F] {T : Type} (x : F T) (dflt : Unit → T) : T :=
  let (val, ok) := unwrappable.unwrap x
  if ok then val else dflt ()

/-- Go `HasValue[T](x unwrappable[T]) bool { _, ok := x.unwrap(); return ok }`. -/
def HasValue {F : Type → Type} [unwrappable F] {T : Type} (x : F T) : Bool :=
  (unwrappable.unwrap x).2

/-- Go `IsEmpty[T](x unwrappable[T]) bool { _, ok := x.unwrap(); return !ok }`. -/
def IsEmpty {F : Type → Type} [unwrappable F] {T : Type} (x : F T) : Bool :=
  !(unwrappable.unwrap x).2

/-- Outcome of running a fuel-indexed embedding of a Go `for` loop:
`done a` means the loop returned (with observation `a`) within the given
number of iterations; `fuelOut` means the loop is still running. -/
inductive LoopResult (α : Type) where
  | done : α → LoopResult α
  | fuelOut : LoopResult α
deriving DecidableEq, Repr

/-- Body of Go `StepRange`:
`for start < end { if !yield(start) { return }; start += step }`.
Fuel-indexed; `done l` returns the list of elements passed to `yield`
(including the element on which `yield` answered false, since `yield` did
receive it). The consumer `yield` is the per-element callback of the
`iter.Seq` push protocol. -/
def StepRangeLoop (e step : Int) (yield : Int → Bool) : Nat → Int → LoopResult (List Int)
  | 0, start => if start < e then LoopResult.fuelOut else LoopResult.done []
  | fuel + 1, start =>
    if start < e then
      if yield start then
        match StepRangeLoop e step yield fuel (start + step) with
        | LoopResult.done l => LoopResult.done (start :: l)
        | LoopResult.fuelOut => LoopResult.fuelOut
      else LoopResult.done [start]
    else LoopResult.done []

/-- Go `StepRange[T](start, end, step T) iter.Seq[T]`, instantiated at `Int`
and applied to a consumer, run with the given fuel. -/
def StepRange (start e step : Int) (yield : Int → Bool) (fuel : Nat) : LoopResult (List Int) :=
  StepRangeLoop e step yield fuel start

/-- Go `Range[T](start, end T) iter.Seq[T] { return StepRange(start, end, 1) }`. -/
def Range (start e : Int) (yield : Int → Bool) (fuel : Nat) : LoopResult (List Int) :=
  StepRange start e 1 yield fuel

/-- Modelled from the spec: the intended materialization of `range(start, e)`,
the list `[start, start+1, …, e-1]` of length `max(0, e - start)`. -/
def RangeList (start e : Int) : List Int :=
  (List.range (e - start).toNat).map (fun i : Nat => start + (i : Int))

/-- The list `a, a+1, …, a+k-1`, in the recursion shape of the `StepRange`
loop with step 1 (helper for relating the loop to `RangeList`). -/
def rangeFrom (a : Int) : Nat → List Int
  | 0 => []
  | k + 1 => a :: rangeFrom (a + 1) k

/-- Go `Zip[T, K](a iter.Seq[T], b iter.Seq[K]) iter.Seq2[T, K]` over
list-backed sequences. Each loop iteration calls `pa()` then `pb()`
unconditionally (via `iter.Pull`), then stops unless both pulls succeeded and
`yield` answers true. Returns the pairs passed to `yield` together with the
number of elements consumed (successfully pulled) from each side. -/
def Zip {T K : Type} (yield : T → K → Bool) : List T → List K → List (T × K) × Nat × Nat
  | [], [] => ([], 0, 0)
  | [], _ :: _ => ([], 0, 1)
  | _ :: _, [] => ([], 1, 0)
  | a :: as, b :: bs =>
    if yield a b then
      match Zip yield as bs with
      | (ps, na, nb) => ((a, b) :: ps, na + 1, nb + 1)
    else ([(a, b)], 1, 1)

/-- Inner loop of Go `Chain`: `for x := range i { if !yield(x) { return } }`
over one list-backed sequence, with a stateful consumer. Returns the final
consumer state, the elements passed to `yield`, and whether `yield` stopped
the iteration. -/
def pushList {S T : Type} (yield : S → T → S × Bool) : S → List T → S × List T × Bool
  | s, [] => (s, [], false)
  | s, x :: xs =>
    let (s', cont) := yield s x
    if cont then
      match pushList yield s' xs with
      | (s'', ys, st) => (s'', x :: ys, st)
    else (s', [x], true)

/-- Go `Chain[T](iters ...iter.Seq[T]) iter.Seq[T]`:
`for _, i := range iters { for x := range i { if !yield(x) { return } } }`.
Returns the final consumer state, the elements passed to `yield`, the number
of sequences entered, and whether the consumer stopped the iteration. -/
def Chain {S T : Type} (yield : S → T → S × Bool) : S → List (List T) → S × List T × Nat × Bool
  | s, [] => (s, [], 0, false)
  | s, l :: ls =>
    match pushList yield s l with
    | (s', ys, st) =>
      if st then (s', ys, 1, true)
      else
        match Chain yield s' ls with
        | (s'', ys2, n, st2) => (s'', ys ++ ys2, n + 1, st2)

/-- Go `Reduce[T](in iter.Seq[T], seed T, f func(a, b T) T) T`:
`out := seed; for v := range in { out = f(out, v) }; return out`. -/
def Reduce {T : Type} : List T → T → (T → T → T) → T
  | [], seed, _ => seed
  | v :: rest, seed, f => Reduce rest (f seed v) f

/-- Go `Sum[T](in iter.Seq[T]) T { var zero T; return Reduce(in, zero, +) }`,
instantiated at `Int`. -/
def Sum (l : List Int) : Int :=
  Reduce l 0 (fun a b => a + b)

/-- Go `Reverse[T](i iter.Seq[T]) iter.Seq[T]`: collects the sequence to a
slice, reverses it in place, and yields the reversed slice. -/
def Reverse {T : Type} (l : List T) : List T :=
  List.reverse l

/-- Go `Enumerate[T](x iter.Seq[T]) iter.Seq2[int, T]`: pairs each element
with its 0-based index. -/
def Enumerate {T : Type} (l : List T) : List (Nat × T) :=
  (List.range l.length).zip l

/-- C10: for every value `v` and error `e` (including a non-zero `v` paired
with a non-nil `e`), `Unpack (Try v e)` returns exactly the pair `(v, e)`:
`Try`/`Unpack` is an exact round-trip and a `Result` preserves the paired
value even when it also carries a non-nil error. -/
theorem Unpack_Try_roundtrip (T : Type) (v : T) (e : GoError) :
    Unpack (Try v e) = (v, e) :=
  rfl

/-- C9: for every inhabited type `T`, `Err T nil` is the same `Result` as
`Ok default` (the zero value of `T`): `HasValue` is true, `Unwrap` returns the
zero value without panicking, `Iter` yields exactly the zero value, and
`IterErr` yields nothing — presence is determined solely by whether the stored
error is nil. -/
theorem Err_nil_eq_Ok_zero (T : Type) [Inhabited T] :
    Err T GoError.nil = Ok (default : T)
    ∧ HasValue (Err T GoError.nil) = true
    ∧ Unwrap (Err T GoError.nil) = Except.ok (default : T)
    ∧ (Err T GoError.nil).Iter = [(default : T)]
    ∧ IterErr (Err T GoError.nil) = [] := by
  refine ⟨rfl, rfl, rfl, ?_, ?_⟩ <;> simp [Err, Result.Iter, IterErr]

/-- C3: for every `Result` built via `Try v e`: if `e` is non-nil then
`HasValue` is false and `IterErr` yields exactly `[e]`, regardless of `v`;
if `e` is nil then `HasValue` is true and `Iter` yields exactly `[v]`. -/
theorem Try_spec (T : Type) (v : T) (e : GoError) :
    (e ≠ GoError.nil → HasValue (Try v e) = false ∧ IterErr (Try v e) = [e])
    ∧ (e = GoError.nil → HasValue (Try v e) = true ∧ (Try v e).Iter = [v]) := by
  cases e <;>
    simp [Try, HasValue, unwrappable.unwrap, instUnwrappableResult, Result.unwrap,
      IterErr, Result.Iter]

/-- Concrete instance of `Try_spec`: the non-nil branch at `v = 7`,
`e = mk "boom"`, and the nil branch at `v = 7`, `e = nil`. -/
theorem Try_spec_witness :
    (HasValue (Try (7 : Int) (GoError.mk "boom")) = false
      ∧ IterErr (Try (7 : Int) (GoError.mk "boom")) = [GoError.mk "boom"])
    ∧ (HasValue (Try (7 : Int) GoError.nil) = true
      ∧ (Try (7 : Int) GoError.nil).Iter = [(7 : Int)]) :=
  ⟨(Try_spec Int 7 (GoError.mk "boom")).1 (by decide),
   (Try_spec Int 7 GoError.nil).2 rfl⟩

/-- C4: for both containers satisfying the `unwrappable` capability:
`Unwrap` returns the contained value when the container has a value, and
panics (`Except.error`, never an `Except.ok` carrying a zero value) when the
container is empty (`None` or an error `Result`). -/
theorem Unwrap_spec (T : Type) (o : Option T) (r : Result T) :
    (HasValue o = true → Unwrap o = Except.ok o.val)
    ∧ (HasValue o = false → Unwrap o = Except.error "called Unwrap on an empty value")
    ∧ (HasValue r = true → Unwrap r = Except.ok r.val)
    ∧ (HasValue r = false → Unwrap r = Except.error "called Unwrap on an empty value") := by
  obtain ⟨ov, oh⟩ := o
  obtain ⟨rv, re⟩ := r
  cases oh <;> cases re <;>
    simp [HasValue, Unwrap, unwrappable.unwrap, instUnwrappableResult,
      instUnwrappableOption, Result.unwrap, Option.unwrap]

/-- Concrete instance of `Unwrap_spec`: `Some 3` unwraps to its value, and an
error `Result` makes `Unwrap` panic rather than return a zero value. -/
theorem Unwrap_spec_witness :
    Unwrap (Some (3 : Int)) = Except.ok (Some (3 : Int)).val
    ∧ Unwrap (Err Int (GoError.mk "e")) = Except.error "called Unwrap on an empty value" :=
  ⟨(Unwrap_spec Int (Some 3) (Ok 0)).1 (by decide),
   (Unwrap_spec Int (Some 3) (Err Int (GoError.mk "e"))).2.2.2 (by decide)⟩

/-- Closed form of `rangeFrom`: it is the length-`k` arithmetic progression
`a + 0, a + 1, …, a + (k-1)`. -/
theorem rangeFrom_eq_map (k : Nat) :
    ∀ a : Int, rangeFrom a k = (List.range k).map (fun i : Nat => a + (i : Int)) := by
  induction k with
  | zero =>
    intro a
    simp [rangeFrom]
  | succ k ih =>
    intro a
    have hc : ((fun i : Nat => a + (i : Int)) ∘ Nat.succ)
        = fun i : Nat => (a + 1) + (i : Int) := by
      funext i
      simp only [Function.comp]
      push_cast
      ring
    rw [rangeFrom, ih (a + 1), List.range_succ_eq_map, List.map_cons, List.map_map, hc]
    simp

/-- `RangeList` and `rangeFrom` describe the same list. -/
theorem rangeList_eq_rangeFrom (a b : Int) :
    RangeList a b = rangeFrom a (b - a).toNat := by
  rw [RangeList, rangeFrom_eq_map]

/-- Running the `StepRange` loop with step 1 and an always-continue consumer
from `a` up to `a + k`, with fuel `k`, finishes and yields
`a, a+1, …, a+k-1`. -/
theorem stepRangeLoop_one_true (k : Nat) :
    ∀ a : Int, StepRangeLoop (a + (k : Int)) 1 (fun _ => true) k a
      = LoopResult.done (rangeFrom a k) := by
  induction k with
  | zero =>
    intro a
    simp [StepRangeLoop, rangeFrom]
  | succ k ih =>
    intro a
    have h1 : a < a + ((k + 1 : Nat) : Int) := by push_cast; omega
    have hrec := ih (a + 1)
    have h2 : (a + 1) + (k : Int) = a + ((k : Int) + 1) := by ring
    rw [h2] at hrec
    simp [StepRangeLoop, h1, hrec, rangeFrom]

/-- C7: for all integers `a ≤ b`, `Range a b` driven by an always-continue
consumer materializes (with fuel `b - a`) to the list `a, a+1, …, b-1` of
length `b - a`; for `a > b` the sequence is empty at any fuel. -/
theorem Range_spec (a b : Int) :
    (a ≤ b →
      Range a b (fun _ => true) (b - a).toNat = LoopResult.done (RangeList a b)
      ∧ ((RangeList a b).length : Int) = b - a)
    ∧ (b < a → ∀ fuel : Nat, Range a b (fun _ => true) fuel = LoopResult.done []) := by
  constructor
  · intro hab
    constructor
    · have hb : a + (((b - a).toNat : Nat) : Int) = b := by omega
      have key := stepRangeLoop_one_true (b - a).toNat a
      rw [hb] at key
      rw [rangeList_eq_rangeFrom]
      exact key
    · simp only [RangeList, List.length_map, List.length_range]
      omega
  · intro hba fuel
    have hn : ¬ a < b := by omega
    cases fuel <;> simp [Range, StepRange, StepRangeLoop, hn]

/-- Concrete instance of `Range_spec`: `Range 2 5` materializes to `[2, 3, 4]`
and `Range 7 3` is empty. -/
theorem Range_spec_witness :
    Range 2 5 (fun _ => true) ((5 : Int) - 2).toNat = LoopResult.done (RangeList 2 5)
    ∧ Range 7 3 (fun _ => true) 4 = LoopResult.done [] :=
  ⟨((Range_spec 2 5).1 (by decide)).1, (Range_spec 7 3).2 (by decide) 4⟩

/-- C1 counterexample: at `start = 0`, `end = 1`, `step = 0` the sequence is
not empty — a consumer receives the element `0` (here a consumer that stops
immediately, so the run terminates and the yielded list `[0]` is visible) —
and with an always-continue consumer the loop is still running after 12
iterations instead of terminating with an empty yield. -/
theorem StepRange_zero_step_not_empty :
    StepRange 0 1 0 (fun _ => false) 1 = LoopResult.done [0]
    ∧ StepRange 0 1 0 (fun _ => true) 12 = LoopResult.fuelOut := by
  constructor <;> decide

/-- C1 (amended): for `step ≤ 0` with `start < end`, `StepRange` is an
infinite sequence beginning with `start`, not an empty one: with an
always-continue consumer the loop never terminates (any finite fuel runs
out), and a consumer always receives `start` as the first element. -/
theorem StepRange_nonpos_step_diverges (start e step : Int)
    (h : start < e) (hs : step ≤ 0) :
    (∀ fuel : Nat, StepRange start e step (fun _ => true) fuel = LoopResult.fuelOut)
    ∧ StepRange start e step (fun _ => false) 1 = LoopResult.done [start] := by
  constructor
  · have key : ∀ (fuel : Nat) (s : Int), s < e →
        StepRangeLoop e step (fun _ => true) fuel s = LoopResult.fuelOut := by
      intro fuel
      induction fuel with
      | zero => intro s hlt; simp [StepRangeLoop, hlt]
      | succ n ih =>
        intro s hlt
        have hlt2 : s + step < e := by omega
        simp [StepRangeLoop, hlt, ih _ hlt2]
    intro fuel
    exact key fuel start h
  · simp [StepRange, StepRangeLoop, h]

/-- Concrete instance of `StepRange_nonpos_step_diverges` at
`start = 0`, `end = 1`, `step = 0`. -/
theorem StepRange_nonpos_step_diverges_witness :
    StepRange 0 1 0 (fun _ => true) 5 = LoopResult.fuelOut
    ∧ StepRange 0 1 0 (fun _ => false) 1 = LoopResult.done [0] :=
  ⟨(StepRange_nonpos_step_diverges 0 1 0 (by decide) (by decide)).1 5,
   (StepRange_nonpos_step_diverges 0 1 0 (by decide) (by decide)).2⟩

/-- C2 counterexample: with an always-continue consumer, `Zip` of the
10-element range and the 5-element range consumes 6 elements of the longer
side — the claim's bound of at most 5 pulls is violated. -/
theorem Zip_longer_side_pulled_six_times :
    (Zip (fun _ _ => true) (RangeList 0 10) (RangeList 0 5)).2.1 = 6 := by
  decide

/-- C2 (amended): `Zip (Range 0 10) (Range 0 5)` yields exactly the 5 pairs
`(i, i)` for `i = 0..4` and terminates as soon as the shorter side is
exhausted, but on the final tick it pulls (and discards) the 6th element of
the longer side before discovering the shorter side is exhausted: the longer
side is consumed 6 times and the shorter side 5 times. -/
theorem Zip_range_ten_five :
    Zip (fun _ _ => true) (RangeList 0 10) (RangeList 0 5)
      = ([(0, 0), (1, 1), (2, 2), (3, 3), (4, 4)], 6, 5) := by
  decide

/-- Driving `pushList` with a consumer that always continues yields the whole
list and does not stop. -/
theorem pushList_always_true {T : Type} (s : Unit) (A : List T) :
    pushList (fun (s : Unit) (_ : T) => (s, true)) s A = (s, A, false) := by
  induction A with
  | nil => rfl
  | cons x xs ih => simp [pushList, ih]

/-- C5: materializing `Chain [A, B]` with an always-continue consumer yields
`A ++ B`; `Chain` of zero sequences yields nothing, touches no sequence and
is not stopped; if the consumer signals stop mid-sequence then appending any
later sequences changes nothing about the run (they are never touched); and
a stop inside the first sequence makes `Chain` return at once having entered
exactly one sequence. -/
theorem Chain_spec (T : Type) :
    (∀ A B : List T,
      (Chain (fun (s : Unit) (_ : T) => (s, true)) () [A, B]).2.1 = A ++ B)
    ∧ (∀ (S : Type) (yield : S → T → S × Bool) (s : S), Chain yield s [] = (s, [], 0, false))
    ∧ (∀ (S : Type) (yield : S → T → S × Bool) (ls rest : List (List T)) (s : S),
        (Chain yield s ls).2.2.2 = true →
        Chain yield s (ls ++ rest) = Chain yield s ls)
    ∧ (∀ (S : Type) (yield : S → T → S × Bool) (s : S) (A : List T) (rest : List (List T)),
        (pushList yield s A).2.2 = true →
        (Chain yield s (A :: rest)).2.2.1 = 1) := by
  refine ⟨?_, fun S yield s => rfl, ?_, ?_⟩
  · intro A B
    simp [Chain, pushList_always_true]
  · intro S yield ls rest
    induction ls with
    | nil =>
      intro s h
      simp [Chain] at h
    | cons l ls ih =>
      intro s h
      rcases hp : pushList yield s l with ⟨s', ys, st⟩
      cases st with
      | true =>
        simp [Chain, hp]
      | false =>
        rcases hc : Chain yield s' ls with ⟨s'', ys2, n, st2⟩
        rw [show ((l :: ls) ++ rest) = l :: (ls ++ rest) from rfl]
        have h' : (Chain yield s' ls).2.2.2 = true := by
          simp [Chain, hp, hc] at h
          simp [hc, h]
        simp [Chain, hp, ih s' h']
  · intro S yield s A rest h
    rcases hp : pushList yield s A with ⟨s', ys, st⟩
    rw [hp] at h
    simp at h
    subst h
    simp [Chain, hp]

/-- Concrete instance of `Chain_spec`: a consumer that stops on the first
element makes `Chain` ignore appended later sequences entirely and report
that exactly one sequence was entered. -/
theorem Chain_spec_witness :
    Chain (fun (n : Nat) (_ : Int) => (n + 1, false)) 0 [[7], [8, 9]]
      = Chain (fun (n : Nat) (_ : Int) => (n + 1, false)) 0 [[7]]
    ∧ (Chain (fun (n : Nat) (_ : Int) => (n + 1, false)) 0 [[7], [8, 9]]).2.2.1 = 1 :=
  ⟨(Chain_spec Int).2.2.1 Nat (fun (n : Nat) (_ : Int) => (n + 1, false)) [[7]] [[8, 9]] 0
      (by decide),
   (Chain_spec Int).2.2.2 Nat (fun (n : Nat) (_ : Int) => (n + 1, false)) 0 [7] [[8, 9]]
      (by decide)⟩

/-- C6: `Reduce` is the strict left fold — it agrees with `List.foldl`
(`acc = seed; for each e: acc = f acc e`), returns `seed` unchanged on the
empty sequence, and `Sum` is exactly `Reduce` with `+` and zero seed. -/
theorem Reduce_spec (T : Type) (l : List T) (seed : T) (f : T → T → T) :
    Reduce l seed f = List.foldl f seed l
    ∧ Reduce ([] : List T) seed f = seed
    ∧ (∀ li : List Int, Sum li = Reduce li 0 (fun a b => a + b)) := by
  refine ⟨?_, rfl, fun li => rfl⟩
  induction l generalizing seed with
  | nil => rfl
  | cons v rest ih => simp [Reduce, List.foldl, ih]

/-- Concrete instance of `Reduce_spec`: folding `[1, 2, 3]` with `+`. -/
theorem Reduce_spec_witness :
    Reduce [1, 2, 3] 0 (fun a b => a + b)
      = List.foldl (fun a b => a + b) 0 ([1, 2, 3] : List Int) :=
  (Reduce_spec Int [1, 2, 3] 0 (fun a b => a + b)).1

/-- C8: `Reverse` is an involution on finite sequences — materializing
`Reverse (Reverse l)` gives back `l` — and `Reverse` of a sequence yielding
`[1, 2, 3]` yields `[3, 2, 1]`. -/
theorem Reverse_spec (T : Type) (l : List T) :
    Reverse (Reverse l) = l ∧ Reverse ([1, 2, 3] : List Int) = [3, 2, 1] :=
  ⟨by simp [Reverse], by decide⟩

/-- Concrete instance of `Reverse_spec` at the list `[1, 2]`. -/
theorem Reverse_spec_witness :
    Reverse (Reverse ([1, 2] : List Int)) = [1, 2] :=
  (Reverse_spec Int [1, 2]).1

/-- Concrete instance of `Err_nil_eq_Ok_zero` at `T = Int`. -/
theorem Err_nil_eq_Ok_zero_witness :
    Err Int GoError.nil = Ok (default : Int)
    ∧ HasValue (Err Int GoError.nil) = true
    ∧ Unwrap (Err Int GoError.nil) = Except.ok (default : Int)
    ∧ (Err Int GoError.nil).Iter = [(default : Int)]
    ∧ IterErr (Err Int GoError.nil) = [] :=
  Err_nil_eq_Ok_zero Int

/-- Concrete instance of `Unpack_Try_roundtrip`: a non-zero value paired with
a non-nil error survives the round-trip intact. -/
theorem Unpack_Try_roundtrip_witness :
    Unpack (Try (5 : Int) (GoError.mk "e")) = (5, GoError.mk "e") :=
  Unpack_Try_roundtrip Int 5 (GoError.mk "e")

end fn
